import Mathlib

/-!
# Verification of the `sqlhelper` field extractor and query builder

Shallow embedding of `q.go` (package `sqlhelper`):

* `StructToKVs` / `getName` — reflection-based extraction of (column name, value)
  pairs from a struct.  A struct is modelled as the ordered list of its fields,
  each field carrying its declared name, its `sql` tag and its `json` tag
  (Go's `Tag.Get` returns `""` for an absent tag) together with the field's
  current value (type-erased in Go; a type parameter here).
* `Query` / `NewQuery` / `Query.InsertInto` / `Query.str` / `Query.Copy` /
  `Query.ExecInsert` — the dialect-aware INSERT builder.  Go's `Syntax uint8`
  enumeration (`PSQL = 0`, `MySQL = 1`) is modelled by the two-constructor
  `Dialect`; the builder's `switch q.Syntax { case 0: ...; default: ... }`
  maps `PSQL` to the `case 0` arm and `MySQL` to the `default` arm.
* `WrapCopyIn` — the bulk-load wrapper, modelled as a trace function over an
  environment of step outcomes (each fallible collaborator call is an oracle).

Go panics are modelled by `Option`/`none` (no value is produced).
Strings are treated at the level of their character sequences; the comma
separator is ASCII, so byte-level and character-level splitting coincide.
-/

/- ------------------------------------------------------------------ -/
/- Field extractor (q.go lines 15-52)                                  -/
/- ------------------------------------------------------------------ -/

/-- One struct field's metadata: `t.Name`, `t.Tag.Get "sql"`, `t.Tag.Get "json"`.
Go's `Tag.Get` yields `""` when the tag is absent. -/
structure StructField where
  name : String
  sqlTag : String
  jsonTag : String
deriving DecidableEq, Repr

/-- `strings.Split(s, ",")` at character level: splits the character list at
every comma; the result is always non-empty and its head is the part of the
string before the first comma. -/
def splitComma : List Char → List (List Char)
  | [] => [[]]
  | c :: rest =>
    if c = ',' then [] :: splitComma rest
    else
      match splitComma rest with
      | g :: gs => (c :: g) :: gs
      | [] => [[c]]

/-- `unicode.IsLower(rune(t.Name[0]))` guarded by `t.Name != ""`.  Go reads the
first byte of the name as a rune; for ASCII names (the only ones exercised
here) that is the first character.  `Char.isLower` agrees with Go's
`unicode.IsLower` on ASCII. -/
def isLowerFirst (s : String) : Bool :=
  match s.toList with
  | [] => false
  | c :: _ => c.isLower

/-- `getName` (q.go lines 35-52): skip-signalling name resolution.  Returns
`""` for an empty or lowercase-first field name; otherwise the part of the
`sql` tag before its first comma when that tag is non-empty, else the part of
the `json` tag before its first comma when that tag is non-empty, else the
declared field name.  The Go code's `len(p) > 0` guards are kept (they are
always true, since `strings.Split` never returns an empty slice). -/
def getName (t : StructField) : String :=
  if t.name = "" ∨ isLowerFirst t.name then ""
  else if t.sqlTag ≠ "" ∧ (splitComma t.sqlTag.toList).length > 0 then
    String.mk ((splitComma t.sqlTag.toList).headD [])
  else if t.jsonTag ≠ "" ∧ (splitComma t.jsonTag.toList).length > 0 then
    String.mk ((splitComma t.jsonTag.toList).headD [])
  else t.name

/-- `StructToKVs` (q.go lines 15-33) on a struct given as its ordered field
list paired with the fields' current values.  Fields whose resolved name is
`""` are skipped; kept fields contribute their name to `keys` and their value
to `values`, in declaration order.

(The model does not reproduce Go's `reflect.Value.Interface` panic on
unexported fields that slip through `getName`'s lowercase check, such as a
field named `"_x"`; the panic happens at value capture, after the name
resolution modelled here has already declined to skip the field.) -/
def StructToKVs {α : Type} : List (StructField × α) → List String × List α
  | [] => ([], [])
  | fv :: rest =>
    let r := StructToKVs rest
    if getName fv.1 = "" then r else (getName fv.1 :: r.1, fv.2 :: r.2)

/-- The spec's comma truncation, stated from its words: "the substring of that
tag before its first comma". -/
def untilComma (s : String) : String :=
  String.mk (s.toList.takeWhile (fun c => c ≠ ','))

/-- The spec's name-resolution chain, stated from its words: a non-empty SQL
tag wins (truncated at its first comma); else a non-empty JSON tag (likewise
truncated); else the declared field name. -/
def specResolveName (f : StructField) : String :=
  if f.sqlTag ≠ "" then untilComma f.sqlTag
  else if f.jsonTag ≠ "" then untilComma f.jsonTag
  else f.name

/- ------------------------------------------------------------------ -/
/- Basic lemmas about the extractor                                    -/
/- ------------------------------------------------------------------ -/

theorem splitComma_ne_nil (l : List Char) : splitComma l ≠ [] := by
  cases l with
  | nil => simp [splitComma]
  | cons c rest =>
    simp only [splitComma]
    by_cases hc : c = ','
    · simp [hc]
    · simp only [hc, if_false]
      cases h : splitComma rest <;> simp

theorem splitComma_headD (l : List Char) :
    (splitComma l).head?.getD [] = l.takeWhile (fun c => !decide (c = ',')) := by
  induction l with
  | nil => simp [splitComma]
  | cons c rest ih =>
    simp only [splitComma]
    by_cases hc : c = ','
    · subst hc; simp [List.takeWhile]
    · simp only [hc, if_false]
      cases h : splitComma rest with
      | nil => exact absurd h (splitComma_ne_nil rest)
      | cons g gs =>
        have : g = rest.takeWhile (fun c => !decide (c = ',')) := by
          simpa [h] using ih
        simp [List.takeWhile, hc, this]

/-- For a field the extractor keeps, the code's name resolution and the spec's
precedence chain agree. -/
theorem getName_eq_specResolveName (f : StructField) (h : getName f ≠ "") :
    getName f = specResolveName f := by
  by_cases hskip : f.name = "" ∨ isLowerFirst f.name
  · exact absurd (by simp [getName, hskip]) h
  · by_cases hsql : f.sqlTag ≠ ""
    · simp [getName, specResolveName, hskip, hsql, untilComma,
        splitComma_headD, List.length_pos, splitComma_ne_nil]
    · by_cases hjson : f.jsonTag ≠ ""
      · simp [getName, specResolveName, hskip, hsql, hjson, untilComma,
          splitComma_headD, List.length_pos, splitComma_ne_nil]
      · simp [getName, specResolveName, hskip, hsql, hjson]

/-- A name that resolves empty under the spec's chain also resolves empty
under the code's `getName`, hence the field is skipped. -/
theorem getName_eq_empty_of_spec_empty (f : StructField)
    (h : specResolveName f = "") : getName f = "" := by
  by_cases hg : getName f = ""
  · exact hg
  · rw [getName_eq_specResolveName f hg] at hg
    exact absurd h hg

/- ------------------------------------------------------------------ -/
/- Query builder (q.go lines 54-132)                                   -/
/- ------------------------------------------------------------------ -/

/-- Go's dialect enumeration (`type Syntax uint8`, `PSQL = 0` by iota,
`MySQL = 1`).  The builder's switch has arms `case 0` (here `PSQL`) and
`default` (here `MySQL`, the generic placeholder dialect). -/
inductive Dialect where
  | PSQL
  | MySQL
deriving DecidableEq, Repr

/-- The `Query` builder: the accumulated `strings.Builder` text `sb` and the
embedded dialect field (named `Syntax` in the Go struct). -/
structure Query where
  sb : String
  syn : Dialect
deriving DecidableEq, Repr

/-- `NewQuery` (q.go lines 61-63): fresh builder with an empty buffer. -/
def NewQuery (syn : Dialect) : Query := { sb := "", syn := syn }

/-- `Query.String()` (q.go line 125): read the accumulated text. -/
def Query.str (q : Query) : String := q.sb

/-- One pass of the Go write loops `for i, k := range xs { if i > 0 \x7b
WriteByte(',') \x7d; WriteString(k) }`: a comma is written before every
element whose index is positive. -/
def joinLoop (sb : String) (i : Nat) : List String → String
  | [] => sb
  | x :: xs => joinLoop ((if i > 0 then sb ++ "," else sb) ++ x) (i + 1) xs

/-- The placeholder written for column index `i` (0-based) inside the VALUES
loop: `$<i+1>` under `case 0` (PSQL), `?` under `default`. -/
def placeholder (syn : Dialect) (i : Nat) : String :=
  match syn with
  | .PSQL => "$" ++ toString (i + 1)
  | .MySQL => "?"

/-- `Query.InsertInto` (q.go lines 70-108).  Panics (`none`) on an empty key
list; otherwise appends `INSERT INTO <tbl> (<keys comma-joined>) VALUES
(<placeholders comma-joined>)` to the buffer, then ` RETURNING id` under the
`case 0` (PSQL) arm only, and returns the updated builder. -/
def Query.InsertInto (q : Query) (tbl : String) (keys : List String) :
    Option Query :=
  if keys = [] then none
  else
    let sb := q.sb ++ "INSERT INTO " ++ tbl ++ " ("
    let sb := joinLoop sb 0 keys
    let sb := sb ++ ") VALUES ("
    let sb := joinLoop sb 0 ((List.range keys.length).map (placeholder q.syn))
    let sb := sb ++ ")"
    let sb := match q.syn with
      | .PSQL => sb ++ " RETURNING id"
      | .MySQL => sb
    some { q with sb := sb }

/-- `Query.Copy` (q.go lines 127-132): a fresh builder with the same dialect
whose buffer is a fresh copy of the source's current text (`NewQuery` followed
by `WriteString(q.String())`; `Grow` only reserves capacity). -/
def Query.Copy (q : Query) : Query :=
  let nq := NewQuery q.syn
  { nq with sb := nq.sb ++ q.str }

/-- Appending text to a builder (one `strings.Builder.WriteString`). -/
def writeString (q : Query) (s : String) : Query := { q with sb := q.sb ++ s }

/-- Spec-side comma join: "`(<col1>,<col2>,...)`" — the elements separated by
single commas. -/
def commaSep : List String → String
  | [] => ""
  | [x] => x
  | x :: y :: xs => x ++ "," ++ commaSep (y :: xs)

/-- Spec-side placeholder list: `$1`,…,`$N` in column order under the
Postgres-style dialect, N repetitions of `?` under the generic dialect. -/
def specPlaceholders (syn : Dialect) (n : Nat) : List String :=
  match syn with
  | .PSQL => (List.range n).map (fun i => "$" ++ toString (i + 1))
  | .MySQL => List.replicate n "?"

/-- Spec-side INSERT text: exactly the sentence of the spec, including the
` RETURNING id` suffix for the Postgres-style dialect only. -/
def specInsertText (syn : Dialect) (tbl : String) (keys : List String) :
    String :=
  "INSERT INTO " ++ tbl ++ " (" ++ commaSep keys ++ ") VALUES ("
    ++ commaSep (specPlaceholders syn keys.length) ++ ")"
    ++ (match syn with | .PSQL => " RETURNING id" | .MySQL => "")

/- Lemmas relating the write loops to the spec-side comma join.            -/

theorem string_append_assoc (a b c : String) :
    a ++ b ++ c = a ++ (b ++ c) := String.append_assoc a b c

theorem string_append_empty (a : String) : a ++ "" = a :=
  String.append_empty a

/-- Every element prefixed by a comma — the shape of `joinLoop` at positive
index. -/
def commaEach : List String → String
  | [] => ""
  | x :: xs => "," ++ x ++ commaEach xs

theorem joinLoop_pos (xs : List String) :
    ∀ (sb : String) (i : Nat), 0 < i →
      joinLoop sb i xs = sb ++ commaEach xs := by
  induction xs with
  | nil => intro sb i _; simp [joinLoop, commaEach, string_append_empty]
  | cons x xs ih =>
    intro sb i hi
    have hi' : i > 0 := hi
    simp only [joinLoop, commaEach, if_pos hi']
    rw [ih _ (i + 1) (Nat.succ_pos i)]
    simp [string_append_assoc]

theorem commaSep_cons_eq (x : String) (xs : List String) :
    commaSep (x :: xs) = x ++ commaEach xs := by
  induction xs generalizing x with
  | nil => simp [commaSep, commaEach, string_append_empty]
  | cons y ys ih =>
    simp only [commaSep, commaEach]
    rw [ih y]
    simp [string_append_assoc]

theorem joinLoop_zero (sb : String) (xs : List String) :
    joinLoop sb 0 xs = sb ++ commaSep xs := by
  cases xs with
  | nil => simp [joinLoop, commaSep, string_append_empty]
  | cons x xs =>
    simp only [joinLoop, if_neg (by decide : ¬ (0 : Nat) > 0)]
    rw [joinLoop_pos xs (sb ++ x) 1 Nat.one_pos, commaSep_cons_eq,
      string_append_assoc]

theorem placeholder_map_eq_spec (syn : Dialect) (n : Nat) :
    (List.range n).map (placeholder syn) = specPlaceholders syn n := by
  cases syn with
  | PSQL => rfl
  | MySQL =>
    show (List.range n).map (fun _ => "?") = _
    simp [specPlaceholders, List.map_const']

/-- `InsertInto` on a non-empty key list produces exactly the spec's text,
appended to the builder's current buffer. -/
theorem insertInto_eq_spec (q : Query) (tbl : String) (keys : List String)
    (h : keys ≠ []) :
    q.InsertInto tbl keys = some { q with sb := q.sb ++ specInsertText q.syn tbl keys } := by
  simp only [Query.InsertInto, if_neg h, placeholder_map_eq_spec,
    joinLoop_zero, specInsertText]
  cases hs : q.syn <;>
    simp [string_append_assoc, string_append_empty]

/- ------------------------------------------------------------------ -/
/- Statement execution (q.go lines 110-123)                            -/
/- ------------------------------------------------------------------ -/

/-- Recoverable errors surfaced by the database collaborators. -/
abbrev Err := String

/-- The execution-target shapes of `ExecInsert`'s type switch, polymorphic in
the context type `C` and the bound-value type `V` (Go `interface{}`):
`*sql.DB` and `*sql.Tx` expose `QueryRowContext(ctx, sql, values...).Scan`
(modelled as a function from context, statement text and values to either a
scan error or the scanned string column); `*sql.Stmt` exposes
`ExecContext(ctx, values...)` (no result scanning, optionally an error); any
other dynamic type falls into the switch's `default` arm. -/
inductive ExecTarget (C V : Type) where
  | db (queryRowScan : C → String → List V → Except Err String)
  | tx (queryRowScan : C → String → List V → Except Err String)
  | stmt (execContext : C → List V → Option Err)
  | other

/-- Go's `err = row.Scan(&id)` into a zero-valued `id string`: on success the
scanned column, on failure an untouched empty `id` plus the error. -/
def scanOutcome (r : Except Err String) : String × Option Err :=
  match r with
  | .ok s => (s, none)
  | .error e => ("", some e)

/-- `Query.ExecInsert` (q.go lines 110-123).  Returns `none` for the
`default` arm's panic, otherwise `some (id, err)` as the Go function does. -/
def Query.ExecInsert {C V : Type} (q : Query) (ins : ExecTarget C V) (ctx : C)
    (values : List V) : Option (String × Option Err) :=
  match ins with
  | .db run => some (scanOutcome (run ctx q.str values))
  | .tx run => some (scanOutcome (run ctx q.str values))
  | .stmt ex => some ("", ex ctx values)
  | .other => none

/- ------------------------------------------------------------------ -/
/- Bulk-load wrapper `WrapCopyIn` (q.go lines 134-167)                 -/
/- ------------------------------------------------------------------ -/

/-- Outcomes of the fallible collaborator calls made by `WrapCopyIn`, in the
order the code can reach them: `db.Begin()`, `tx.PrepareContext(ctx,
pq.CopyIn(table, fields...))`, the caller's `fn(st)`, the finalizing
`st.Exec()`, and in the deferred block `tx.Commit()` and `tx.Rollback()`
(`none` = the call succeeds).  `pq.CopyIn` only renders the COPY statement
text; it cannot fail and does not affect sequencing. -/
structure CopyEnv where
  beginErr : Option Err
  prepareErr : Option Err
  fnErr : Option Err
  execErr : Option Err
  commitErr : Option Err
  rollbackErr : Option Err
deriving DecidableEq, Repr

/-- Observable trace of one `WrapCopyIn` call: the returned error, whether a
statement handle was successfully prepared, and how many times `st.Close()`,
`tx.Rollback()` and `tx.Commit()` were invoked. -/
structure CopyTrace where
  ret : Option Err
  stmtPrepared : Bool
  stmtClosed : Nat
  rollbacks : Nat
  commits : Nat
deriving DecidableEq, Repr

/-- The deferred block of `WrapCopyIn` (q.go lines 144-155), run on every
path reached after `db.Begin()` succeeded: close the statement when one was
prepared, then roll back when `err != nil` (the rollback's own error is
discarded), else `err = tx.Commit()`. -/
def copyDefer (env : CopyEnv) (prepared : Bool) (err : Option Err) :
    CopyTrace :=
  let closed := if prepared then 1 else 0
  match err with
  | some e =>
    { ret := some e, stmtPrepared := prepared, stmtClosed := closed,
      rollbacks := 1, commits := 0 }
  | none =>
    { ret := env.commitErr, stmtPrepared := prepared, stmtClosed := closed,
      rollbacks := 0, commits := 1 }

/-- `WrapCopyIn` (q.go lines 134-167) as a trace function.  A `db.Begin()`
failure returns before the deferred block is registered; afterwards each step
short-circuits to the deferred block with the first error (Go convention: a
failed `PrepareContext` leaves `st = nil`, so no handle exists to close). -/
def WrapCopyIn (env : CopyEnv) : CopyTrace :=
  match env.beginErr with
  | some e =>
    { ret := some e, stmtPrepared := false, stmtClosed := 0,
      rollbacks := 0, commits := 0 }
  | none =>
    match env.prepareErr with
    | some e => copyDefer env false (some e)
    | none =>
      match env.fnErr with
      | some e => copyDefer env true (some e)
      | none => copyDefer env true env.execErr

/-- The originating error of the post-`Begin` steps, in execution order:
prepare, then the callback, then the finalizing `Exec`. -/
def firstFailure (env : CopyEnv) : Option Err :=
  match env.prepareErr with
  | some e => some e
  | none =>
    match env.fnErr with
    | some e => some e
    | none => env.execErr

/- ------------------------------------------------------------------ -/
/- Heap model for `Query.Copy` independence                            -/
/- ------------------------------------------------------------------ -/

/-- A heap of builder instances addressed by index, to express that `Copy`
allocates a fresh builder sharing no mutable state with its source. -/
def heapWrite (h : List Query) (i : Nat) (s : String) : List Query :=
  match h[i]? with
  | some q => h.set i (writeString q s)
  | none => h

/-- Allocate `(h[i]).Copy` as a new cell; returns the new heap and the new
cell's address. -/
def heapCopy (h : List Query) (i : Nat) : List Query × Nat :=
  match h[i]? with
  | some q => (h ++ [q.Copy], h.length)
  | none => (h, h.length)

/- ------------------------------------------------------------------ -/
/- Claims                                                              -/
/- ------------------------------------------------------------------ -/

/-- C1: for every struct field that is extracted (its resolved name is not
the skip-signal `""`), the column name follows the precedence chain: a
non-empty `sql` tag truncated at its first comma, else a non-empty `json`
tag truncated at its first comma, else the declared field name; consequently
the names `StructToKVs` emits are exactly the spec-resolved names of the
kept fields, in declaration order. -/
theorem c1_extracted_name_precedence :
    (∀ f : StructField, getName f ≠ "" → getName f = specResolveName f) ∧
    (∀ (V : Type) (fields : List (StructField × V)),
      (StructToKVs fields).1 =
        (fields.filter (fun fv => getName fv.1 ≠ "")).map
          (fun fv => specResolveName fv.1)) := by
  refine ⟨getName_eq_specResolveName, ?_⟩
  intro V fields
  induction fields with
  | nil => rfl
  | cons fv rest ih =>
    by_cases hg : getName fv.1 = ""
    · simp [StructToKVs, List.filter_cons, hg, ih]
    · have hd : decide (getName fv.1 ≠ "") = true := by simp [hg]
      simp only [StructToKVs, if_neg hg, List.filter_cons, hd, if_true,
        List.map_cons]
      exact congrArg₂ List.cons (getName_eq_specResolveName fv.1 hg) ih

/-- Witness for C1: a field with both tags present; the `sql` tag wins and is
truncated at its first comma. -/
theorem c1_witness :
    getName { name := "Foo", sqlTag := "col,omitempty", jsonTag := "j" } ≠ "" ∧
    getName { name := "Foo", sqlTag := "col,omitempty", jsonTag := "j" } =
      specResolveName { name := "Foo", sqlTag := "col,omitempty", jsonTag := "j" } :=
  ⟨by decide, c1_extracted_name_precedence.1 _ (by decide)⟩

/-- C3: the two sequences `StructToKVs` returns always have equal length, and
their positional pairing is exactly the (resolved name, value) pairs of the
non-skipped fields in declaration order — a skipped field contributes no
entry to either sequence. -/
theorem c3_keys_values_correspondence (V : Type)
    (fields : List (StructField × V)) :
    (StructToKVs fields).1.length = (StructToKVs fields).2.length ∧
    (StructToKVs fields).1.zip (StructToKVs fields).2 =
      fields.filterMap (fun fv =>
        if getName fv.1 = "" then none else some (getName fv.1, fv.2)) := by
  induction fields with
  | nil => exact ⟨rfl, rfl⟩
  | cons fv rest ih =>
    by_cases hg : getName fv.1 = ""
    · simpa [StructToKVs, List.filterMap_cons, hg] using ih
    · simp [StructToKVs, List.filterMap_cons, hg, ih.1, ih.2]

/-- Counterexample to C6: the exported field `Foo` with tag `sql:",omitempty"`
resolves to the empty column name, yet extraction emits no descriptor at all
(the claim asserts a descriptor with name `""` is included). -/
theorem c6_counterexample :
    isLowerFirst "Foo" = false ∧ ("Foo" : String) ≠ "" ∧
    specResolveName { name := "Foo", sqlTag := ",omitempty", jsonTag := "" } = "" ∧
    StructToKVs [({ name := "Foo", sqlTag := ",omitempty", jsonTag := "" },
      (0 : Nat))] = ([], []) := by decide

/-- C6 as amended: a field whose name resolves to the empty string after
comma truncation is skipped entirely — the empty resolved name coincides with
the extractor's skip signal, so the field contributes no entry to either
output sequence. -/
theorem c6_empty_resolved_name_skipped (V : Type) (f : StructField) (v : V)
    (rest : List (StructField × V)) (h : specResolveName f = "") :
    StructToKVs ((f, v) :: rest) = StructToKVs rest := by
  simp [StructToKVs, getName_eq_empty_of_spec_empty f h]

/-- Witness for the amended C6 at the counterexample's field. -/
theorem c6_witness :
    specResolveName { name := "Foo", sqlTag := ",omitempty", jsonTag := "" } = "" ∧
    StructToKVs [({ name := "Foo", sqlTag := ",omitempty", jsonTag := "" },
      (0 : Nat))] = StructToKVs ([] : List (StructField × Nat)) :=
  ⟨by decide, c6_empty_resolved_name_skipped Nat _ 0 [] (by decide)⟩

/-- C7: the code evaluated at the failing input.  The field name `"_x"` is
non-empty and its first character `'_'` is not uppercase, so the claim (and
the spec's skip rule for non-exported fields) requires the field to be
skipped; the code's `unicode.IsLower` test lets `'_'` through (it is neither
lowercase nor uppercase), so `getName` resolves the name `"_x"` and the field
is extracted instead of skipped. -/
theorem c7_underscore_field_not_skipped :
    ('_'.isUpper = false) ∧ ('_'.isLower = false) ∧
    getName { name := "_x", sqlTag := "", jsonTag := "" } = "_x" ∧
    StructToKVs [({ name := "_x", sqlTag := "", jsonTag := "" }, (0 : Nat))] =
      (["_x"], [0]) := by decide

/-- C2: on a fresh builder, `InsertInto` with a non-empty column list yields
exactly `INSERT INTO <t> (<col1>,...,<colN>) VALUES (...)`: the placeholders
are `$1`,…,`$N` in column order followed by ` RETURNING id` under the
Postgres-style dialect, and N repetitions of `?` with no suffix under the
generic dialect. -/
theorem c2_insertInto_text (tbl : String) (keys : List String)
    (h : keys ≠ []) (syn : Dialect) :
    (NewQuery syn).InsertInto tbl keys =
      some { sb := specInsertText syn tbl keys, syn := syn } := by
  rw [insertInto_eq_spec _ _ _ h]
  simp [NewQuery, String.empty_append]

/-- Witness for C2 at the spec's own example: `insertInto("t", ["a","b"])`
under both dialects. -/
theorem c2_witness :
    (["a", "b"] : List String) ≠ [] ∧
    (NewQuery Dialect.PSQL).InsertInto "t" ["a", "b"] =
      some { sb := "INSERT INTO t (a,b) VALUES ($1,$2) RETURNING id",
             syn := Dialect.PSQL } ∧
    (NewQuery Dialect.MySQL).InsertInto "t" ["a", "b"] =
      some { sb := "INSERT INTO t (a,b) VALUES (?,?)",
             syn := Dialect.MySQL } :=
  ⟨by decide,
   (c2_insertInto_text "t" ["a", "b"] (by decide) Dialect.PSQL).trans (by decide),
   (c2_insertInto_text "t" ["a", "b"] (by decide) Dialect.MySQL).trans (by decide)⟩

/-- C8: `InsertInto` with an empty column list panics — no builder state is
produced — for every builder state and table name, hence under both
dialects. -/
theorem c8_empty_columns_panic (q : Query) (tbl : String) :
    q.InsertInto tbl [] = none := by
  simp [Query.InsertInto]

/-- C9: `Copy` allocates a fresh builder cell — at a new heap address — with
the same dialect and the same accumulated text as the source at copy time;
afterwards appending to either cell leaves the other cell's state (in
particular its text) unchanged, for every appended string. -/
theorem c9_copy_independence (h : List Query) (i : Nat) (hi : i < h.length)
    (s : String) :
    (heapCopy h i).2 ≠ i ∧
    (heapCopy h i).1[(heapCopy h i).2]? = some (h[i].Copy) ∧
    (h[i].Copy).syn = h[i].syn ∧
    (h[i].Copy).sb = h[i].sb ∧
    (heapCopy h i).1[i]? = h[i]? ∧
    (heapWrite (heapCopy h i).1 (heapCopy h i).2 s)[i]? =
      (heapCopy h i).1[i]? ∧
    (heapWrite (heapCopy h i).1 i s)[(heapCopy h i).2]? =
      (heapCopy h i).1[(heapCopy h i).2]? := by
  have hq : h[i]? = some h[i] := List.getElem?_eq_getElem hi
  have hne : i ≠ h.length := Nat.ne_of_lt hi
  have hcopy : heapCopy h i = (h ++ [h[i].Copy], h.length) := by
    simp only [heapCopy, hq]
  rw [hcopy]
  have hb : (h ++ [h[i].Copy])[h.length]? = some (h[i].Copy) :=
    List.getElem?_concat_length _ _
  have he : (h ++ [h[i].Copy])[i]? = h[i]? := List.getElem?_append_left hi
  refine ⟨Ne.symm hne, hb, rfl, ?_, he, ?_, ?_⟩
  · simp [Query.Copy, NewQuery, Query.str, String.empty_append]
  · simp only [heapWrite, hb]
    exact List.getElem?_set_ne (Ne.symm hne)
  · simp only [heapWrite, he, hq]
    exact List.getElem?_set_ne hne

/-- Witness for C9: a one-cell heap holding a partially built Postgres-style
query; the copy lands at the fresh address 1, carries the same dialect and
text, and writes to either cell do not reach the other. -/
theorem c9_witness :
    0 < [({ sb := "INSERT", syn := Dialect.PSQL } : Query)].length ∧
    ((heapCopy [({ sb := "INSERT", syn := Dialect.PSQL } : Query)] 0).2 ≠ 0 ∧
     (heapCopy [({ sb := "INSERT", syn := Dialect.PSQL } : Query)] 0).1[
       (heapCopy [({ sb := "INSERT", syn := Dialect.PSQL } : Query)] 0).2]? =
       some (([({ sb := "INSERT", syn := Dialect.PSQL } : Query)][0]).Copy) ∧
     (([({ sb := "INSERT", syn := Dialect.PSQL } : Query)][0]).Copy).syn =
       ([({ sb := "INSERT", syn := Dialect.PSQL } : Query)][0]).syn ∧
     (([({ sb := "INSERT", syn := Dialect.PSQL } : Query)][0]).Copy).sb =
       ([({ sb := "INSERT", syn := Dialect.PSQL } : Query)][0]).sb ∧
     (heapCopy [({ sb := "INSERT", syn := Dialect.PSQL } : Query)] 0).1[0]? =
       [({ sb := "INSERT", syn := Dialect.PSQL } : Query)][0]? ∧
     (heapWrite (heapCopy [({ sb := "INSERT", syn := Dialect.PSQL } : Query)] 0).1
       (heapCopy [({ sb := "INSERT", syn := Dialect.PSQL } : Query)] 0).2 " X")[0]? =
       (heapCopy [({ sb := "INSERT", syn := Dialect.PSQL } : Query)] 0).1[0]? ∧
     (heapWrite (heapCopy [({ sb := "INSERT", syn := Dialect.PSQL } : Query)] 0).1
       0 " X")[
       (heapCopy [({ sb := "INSERT", syn := Dialect.PSQL } : Query)] 0).2]? =
       (heapCopy [({ sb := "INSERT", syn := Dialect.PSQL } : Query)] 0).1[
       (heapCopy [({ sb := "INSERT", syn := Dialect.PSQL } : Query)] 0).2]?) :=
  ⟨by decide,
   c9_copy_independence [({ sb := "INSERT", syn := Dialect.PSQL } : Query)] 0
     (by decide) " X"⟩

/-- C5: `ExecInsert` handles exactly the three execution-target shapes of its
type switch.  A `*sql.DB` or `*sql.Tx` target runs the built statement text
with the supplied values bound in order and scans the single returned column
into the string identifier it returns; a `*sql.Stmt` target executes with
the bound values, scans nothing, and yields the empty identifier; any other
shape panics (`none`).  The scan outcome shows that a target failure is
returned to the caller as the recoverable error component. -/
theorem c5_execInsert_shapes (C V : Type) (q : Query) (ctx : C)
    (values : List V) :
    (∀ run : C → String → List V → Except Err String,
      q.ExecInsert (ExecTarget.db run) ctx values =
        some (scanOutcome (run ctx q.str values))) ∧
    (∀ run : C → String → List V → Except Err String,
      q.ExecInsert (ExecTarget.tx run) ctx values =
        some (scanOutcome (run ctx q.str values))) ∧
    (∀ ex : C → List V → Option Err,
      q.ExecInsert (ExecTarget.stmt ex) ctx values =
        some ("", ex ctx values)) ∧
    (q.ExecInsert (ExecTarget.other) ctx values = none) ∧
    (∀ s : String, scanOutcome (Except.ok s) = (s, none)) ∧
    (∀ e : Err, scanOutcome (Except.error e) = ("", some e)) :=
  ⟨fun _ => rfl, fun _ => rfl, fun _ => rfl, rfl, fun _ => rfl, fun _ => rfl⟩

/-- C10: with a pre-compiled statement target, `ExecInsert` never reads the
builder's accumulated SQL text: any two builders — any dialects, any texts —
behave identically given the same statement handle, context and values, and
the returned identifier is the empty string. -/
theorem c10_stmt_ignores_builder (C V : Type) (q1 q2 : Query)
    (ex : C → List V → Option Err) (ctx : C) (values : List V) :
    q1.ExecInsert (ExecTarget.stmt ex) ctx values =
      q2.ExecInsert (ExecTarget.stmt ex) ctx values ∧
    q1.ExecInsert (ExecTarget.stmt ex) ctx values =
      some ("", ex ctx values) :=
  ⟨rfl, rfl⟩

/-- C4: once the transaction is open (`db.Begin()` succeeded), `WrapCopyIn`
attempts the commit exactly when prepare, the callback and the finalizing
`Exec` all succeeded; on the first failure among those steps the rollback is
attempted exactly once, no commit is attempted, and the originating error —
not the rollback's own error, which the environment may set arbitrarily — is
returned; whenever a statement handle was prepared it is closed exactly once
before returning, on the success and the failure paths alike, and no close
happens when no handle was prepared. -/
theorem c4_wrapCopyIn_transaction (env : CopyEnv)
    (h : env.beginErr = none) :
    ((WrapCopyIn env).commits = 1 ↔
      (env.prepareErr = none ∧ env.fnErr = none ∧ env.execErr = none)) ∧
    (firstFailure env ≠ none →
      (WrapCopyIn env).rollbacks = 1 ∧ (WrapCopyIn env).commits = 0 ∧
      (WrapCopyIn env).ret = firstFailure env) ∧
    ((WrapCopyIn env).stmtPrepared = true → (WrapCopyIn env).stmtClosed = 1) ∧
    ((WrapCopyIn env).stmtPrepared = false → (WrapCopyIn env).stmtClosed = 0) := by
  cases hp : env.prepareErr <;> cases hf : env.fnErr <;> cases he : env.execErr <;>
    simp [WrapCopyIn, copyDefer, firstFailure, h, hp, hf, he]

/-- Environment used by the C4 witness: the transaction opens, the handle is
prepared, the caller's callback fails with `"cb"`, and the later rollback
itself fails with `"rb"` (an error the code discards). -/
def failingCallbackEnv : CopyEnv :=
  { beginErr := none
    prepareErr := none
    fnErr := some "cb"
    execErr := none
    commitErr := none
    rollbackErr := some "rb" }

/-- Witness for C4: on `failingCallbackEnv` exactly one rollback is
attempted, no commit, the prepared handle is closed once, and the surfaced
error is the callback's `"cb"`, not the rollback's `"rb"`. -/
theorem c4_witness :
    failingCallbackEnv.beginErr = none ∧
    ((WrapCopyIn failingCallbackEnv).rollbacks = 1 ∧
     (WrapCopyIn failingCallbackEnv).commits = 0 ∧
     (WrapCopyIn failingCallbackEnv).ret = some "cb" ∧
     (WrapCopyIn failingCallbackEnv).stmtPrepared = true ∧
     (WrapCopyIn failingCallbackEnv).stmtClosed = 1) := by
  constructor
  · rfl
  · have h2 := c4_wrapCopyIn_transaction failingCallbackEnv rfl
    have h3 := h2.2.1 (by decide)
    exact ⟨h3.1, h3.2.1, h3.2.2.trans (by decide), rfl, h2.2.2.1 rfl⟩
